import Mathlib

/-!
Shallow embedding of the FeliCa Standard secure protocol engine from
`src/nfc/tag/tt3_sony.py`: the `CryptoUtils` and `KeyManager` helpers and
the `FelicaStandard` session layer (mutual authentication, the encrypted
command envelope, provisioning).  The single-DES block permutation itself
lives in the external `pyDes` library, so it is abstracted as a pair of
block functions `desE desD : List Nat → List Nat → List Nat` (key first,
then the 8-byte block); every mode-of-operation construction, key chain
and framing rule below is translated from the Python source.  Fallible
Python operations (pyDes size validation `ValueError`s, the
`int.to_bytes` `OverflowError`, `Type3TagCommandError`) are modelled with
`Option`/`Except`, and the in-place mutation of `self` is modelled by
returning the updated state alongside the result.
-/

namespace Felica

/-- Byte strings are modelled as lists of naturals. -/
abbrev Bytes := List Nat

/-- Pointwise XOR of two byte strings, Python
`bytes(x ^ y for x, y in zip(a, b))`; `zip` truncates to the shorter
input. -/
def bxor (a b : Bytes) : Bytes := List.zipWith (fun x y => x ^^^ y) a b

/-- Constant `IV_ZEROS = b"\x00" * BLOCK_SIZE`. -/
def IV_ZEROS : Bytes := List.replicate 8 0

/-- Constant `XOR_MASK = b"\xff" * BLOCK_SIZE`. -/
def XOR_MASK : Bytes := List.replicate 8 255

/-- Little-endian value of a byte string, Python
`int.from_bytes(l, "little")`. -/
def fromLE (l : Bytes) : Nat := l.foldr (fun b acc => b + 256 * acc) 0

/-- Python `n.to_bytes(k, "little")`; `none` models the `OverflowError`
raised when `n` does not fit into `k` bytes. -/
def toBytesLE (k n : Nat) : Option Bytes :=
  if n < 256 ^ k then some ((List.range k).map (fun i => n / 256 ^ i % 256)) else none

/-- Two-byte little-endian encoding of a value that the source has
already bounded by `0xFFFE`, so `to_bytes(2, "little")` cannot fail. -/
def natLE2 (n : Nat) : Bytes := [n % 256, n / 256 % 256]

/-- Split a byte string into 8-byte blocks, Python
`[data[i:i+8] for i in range(0, len(data), 8)]`. -/
def chunks8 (l : Bytes) : List Bytes :=
  (List.range ((l.length + 7) / 8)).map (fun i => (l.drop (8 * i)).take 8)

/-- CBC encryption chaining of a block operation `E` over plaintext
blocks (pyDes CBC mode: each ciphertext block is the next IV). -/
def cbcEncBlocks (E : Bytes → Bytes) : Bytes → List Bytes → List Bytes
  | _, [] => []
  | iv, b :: bs =>
    let c := E (bxor iv b)
    c :: cbcEncBlocks E c bs

/-- CBC decryption chaining: each plaintext block is `D c ⊕ iv` and the
ciphertext block becomes the next IV. -/
def cbcDecBlocks (D : Bytes → Bytes) : Bytes → List Bytes → List Bytes
  | _, [] => []
  | iv, c :: cs => bxor iv (D c) :: cbcDecBlocks D c cs

/-- Full CBC encryption with the all-zero IV of an 8-byte-aligned byte
string. -/
def cbcEncrypt (E : Bytes → Bytes) (data : Bytes) : Bytes :=
  (cbcEncBlocks E IV_ZEROS (chunks8 data)).flatten

/-- Full CBC decryption with the all-zero IV. -/
def cbcDecrypt (D : Bytes → Bytes) (data : Bytes) : Bytes :=
  (cbcDecBlocks D IV_ZEROS (chunks8 data)).flatten

/-- Source function `CryptoUtils.encrypt_des(data, key)`: single DES in
CBC mode with the all-zero IV.  `none` models the `ValueError` pyDes
raises for a key that is not 8 bytes or data that is not 8-byte
aligned. -/
def encrypt_des (desE : Bytes → Bytes → Bytes) (data key : Bytes) : Option Bytes :=
  if key.length = 8 ∧ data.length % 8 = 0 then some (cbcEncrypt (desE key) data) else none

/-- Source function `CryptoUtils.decrypt_des(data, key)`. -/
def decrypt_des (desD : Bytes → Bytes → Bytes) (data key : Bytes) : Option Bytes :=
  if key.length = 8 ∧ data.length % 8 = 0 then some (cbcDecrypt (desD key) data) else none

/-- One-block EDE operation of pyDes `triple_des(key1 + key2 + key1)`. -/
def e3block (desE desD : Bytes → Bytes → Bytes) (k1 k2 b : Bytes) : Bytes :=
  desE k1 (desD k2 (desE k1 b))

/-- One-block DED operation, the inverse direction of `e3block`. -/
def d3block (desE desD : Bytes → Bytes → Bytes) (k1 k2 b : Bytes) : Bytes :=
  desD k1 (desE k2 (desD k1 b))

/-- Source function `CryptoUtils.encrypt_3des(data, key1, key2)`: pyDes
`triple_des` is constructed without a mode argument, hence runs in its
default ECB mode; each 8-byte block is EDE-processed independently. -/
def encrypt_3des (desE desD : Bytes → Bytes → Bytes) (data k1 k2 : Bytes) : Option Bytes :=
  if k1.length = 8 ∧ k2.length = 8 ∧ data.length % 8 = 0 then
    some (((chunks8 data).map (e3block desE desD k1 k2)).flatten)
  else none

/-- Source function `CryptoUtils.decrypt_3des(data, key1, key2)`. -/
def decrypt_3des (desE desD : Bytes → Bytes → Bytes) (data k1 k2 : Bytes) : Option Bytes :=
  if k1.length = 8 ∧ k2.length = 8 ∧ data.length % 8 = 0 then
    some (((chunks8 data).map (d3block desE desD k1 k2)).flatten)
  else none

/-- Source function `CryptoUtils.xor_bytes`; `none` models the
`ValueError` on unequal lengths. -/
def xor_bytes (a b : Bytes) : Option Bytes :=
  if a.length = b.length then some (bxor a b) else none

/-- Source function `KeyManager.generate_service_keys`. -/
def generate_service_keys (desE : Bytes → Bytes → Bytes) (system_key : Bytes)
    (area_keys service_keys : List Bytes) : Option (Bytes × Bytes) := do
  let gsk ← area_keys.foldlM (fun cur k => encrypt_des desE cur k) system_key
  let usk ← service_keys.foldlM (fun cur k => encrypt_des desE cur k) gsk
  pure (gsk, usk)

/-- Source function `KeyManager.generate_package`; the leading `none`
branch models the explicit `ValueError` for data that is not a multiple
of 8 bytes. -/
def generate_package (desE : Bytes → Bytes → Bytes) (package_plain package_key : Bytes) :
    Option Bytes :=
  if package_plain.length % 8 ≠ 0 then none
  else do
    let mac_key ← xor_bytes package_key XOR_MASK
    let enc ← encrypt_des desE package_plain mac_key
    let mac := enc.drop (enc.length - 8)
    encrypt_des desE (package_plain ++ mac) package_key

/-- Session-relevant mutable state of a `FelicaStandard` object:
`transaction_id`, `transaction_key`, `transaction_number` and
`_authenticated_standard`. -/
structure FelicaState where
  transaction_id : Bytes
  transaction_key : Bytes
  transaction_number : Nat
  authenticated : Bool
deriving DecidableEq, Repr

/-- Python exceptions distinguished by the embedding:
`Type3TagCommandError(code)`, `ValueError`, `OverflowError`. -/
inductive PyErr where
  | tagErr (code : Nat)
  | valueErr
  | overflowErr
deriving DecidableEq, Repr

/-- Source function `FelicaStandard._check_packet_mac`.  The `try` block
catches every exception and returns `False`; the only exception possible
inside is the size validation of `decrypt_des`, modelled by the `foldlM`
producing `none`. -/
def check_packet_mac (desD : Bytes → Bytes → Bytes) (data : Bytes) (expected : Nat) : Bool :=
  if data.length % 8 ≠ 0 then false
  else if data.length < 8 then false
  else if (data.take (data.length - 8)).length = 0 then false
  else
    match (chunks8 (data.take (data.length - 8))).reverse.foldlM
        (fun x b => decrypt_des desD x b) (data.drop (data.length - 8)) with
    | none => false
    | some x => decide (2 ≤ x.length ∧ x.getD 0 0 = data.length + 2 ∧ x.getD 1 0 = expected)

/-- Restatement, in the words of the specification (section 4.4, generic
response-MAC verification rule), of the check that `check_packet_mac`
implements: for `data` a multiple of 8 bytes and at least 16 bytes long,
decrypt the final 8-byte block backward through the payload blocks in
reverse order with raw single-DES, each block serving as the key, and
compare the first byte with `len(data) + 2` and the second byte with the
expected response code; shorter or misaligned data always fails. -/
def mac_backchain (desD : Bytes → Bytes → Bytes) (data : Bytes) : Bytes :=
  (chunks8 (data.take (data.length - 8))).reverse.foldl (fun x b => desD b x)
    (data.drop (data.length - 8))

/-- Verbatim statement of the rule: the last 8-byte block, decrypted
backward through the payload blocks in reverse order with raw
single-DES, must start with `len(data) + 2` followed by the expected
response code. -/
def spec_packet_mac (desD : Bytes → Bytes → Bytes) (data : Bytes) (expected : Nat) : Bool :=
  if data.length % 8 = 0 ∧ 16 ≤ data.length then
    decide ((mac_backchain desD data)[0]? = some (data.length + 2) ∧
      (mac_backchain desD data)[1]? = some expected)
  else false

/-- Source function `FelicaStandard._add_padding`. -/
def add_padding (data : Bytes) : Bytes :=
  if data.length % 8 = 0 then data
  else data ++ List.replicate (8 - data.length % 8) (8 - data.length % 8)

/-- Source function `FelicaStandard._calculate_command_mac`.  The
one-byte length field of the seed overflows (Python `OverflowError`)
when `2 + len(payload) + 8` exceeds 255, before any encryption runs. -/
def calculate_command_mac (desE : Bytes → Bytes → Bytes) (cmd_code : Nat) (payload : Bytes) :
    Except PyErr Bytes :=
  if 2 + payload.length + 8 ≥ 256 then .error .overflowErr
  else if cmd_code ≥ 256 then .error .overflowErr
  else
    let x0 : Bytes := [2 + payload.length + 8, cmd_code] ++ List.replicate 6 0
    match (chunks8 payload).foldlM (fun x b => encrypt_des desE x b) x0 with
    | none => .error .valueErr
    | some x => .ok x

/-- Source function `FelicaStandard._verify_encrypted_response`.  The
state travels with the result because Python mutates `self` in place;
the source's `except` clause only re-raises, since every inner operation
either returns normally or raises a `Type3TagCommandError`. -/
def verify_encrypted_response (desD : Bytes → Bytes → Bytes) (st : FelicaState)
    (response : Bytes) (cmd_code : Nat) : FelicaState × Except PyErr Bytes :=
  if check_packet_mac desD response (cmd_code + 1) = false then
    (st, .error (.tagErr 0x1004))
  else if fromLE (response.take 2) ≤ st.transaction_number then (st, .error (.tagErr 0x1003))
  else if (response.drop 2).take 6 ≠ st.transaction_id then (st, .error (.tagErr 0x1003))
  else ({ st with transaction_number := fromLE (response.take 2) }, .ok (response.drop 8))

/-- Source function `FelicaStandard._encryption_exchange`; `rsp` stands
for the bytes the transport collaborator `send_cmd_recv_rsp` returns.
The returned state carries the in-place mutations of `self`, also on
error. -/
def encryption_exchange (desE desD : Bytes → Bytes → Bytes) (st : FelicaState)
    (cmd_code : Nat) (data rsp : Bytes) : FelicaState × Except PyErr Bytes :=
  if st.authenticated = false then (st, .error (.tagErr 0x1001))
  else if st.transaction_number + 1 ≥ 0xFFFF then
    ({ st with transaction_number := st.transaction_number + 1 }, .error (.tagErr 0x1005))
  else
    -- the incremented transaction_number is at most 0xFFFE here, so its
    -- two-byte little-endian encoding cannot overflow
    match calculate_command_mac desE cmd_code
        (add_padding (natLE2 (st.transaction_number + 1) ++ st.transaction_id ++ data)) with
    | .error e => ({ st with transaction_number := st.transaction_number + 1 }, .error e)
    | .ok mac =>
      match encrypt_des desE
          (add_padding (natLE2 (st.transaction_number + 1) ++ st.transaction_id ++ data) ++ mac)
          st.transaction_key with
      | none =>
        ({ st with transaction_number := st.transaction_number + 1 }, .error .valueErr)
      | some _encrypted =>
        match decrypt_des desD rsp st.transaction_key with
        | none =>
          ({ st with transaction_number := st.transaction_number + 1 }, .error .valueErr)
        | some response =>
          verify_encrypted_response desD
            { st with transaction_number := st.transaction_number + 1 } response cmd_code

/-- Source function `FelicaStandard._build_auth1_command`. -/
def build_auth1_command (areas services : List Nat) (challenge_1A : Bytes) : Option Bytes := do
  let c0 ← toBytesLE 1 areas.length
  let c1 ← areas.foldlM (fun acc a => do pure (acc ++ (← toBytesLE 2 a))) c0
  let c2 ← toBytesLE 1 services.length
  let c3 ← services.foldlM (fun acc s => do pure (acc ++ (← toBytesLE 2 s))) (c1 ++ c2)
  pure (c3 ++ challenge_1A)

/-- Source function `FelicaStandard._process_auth2_response`.  It first
overwrites `transaction_id` and `transaction_key`, then decrypts and
MAC-checks the response, then overwrites `transaction_number`, and only
after the echoed-id comparison sets the authenticated flag.  The issue
id and issue parameter are returned as raw bytes; the source hex-encodes
them for the caller. -/
def process_auth2_response (desD : Bytes → Bytes → Bytes) (st : FelicaState)
    (auth2_rsp random_1 random_2 : Bytes) : FelicaState × Except PyErr (Bytes × Bytes) :=
  match decrypt_des desD auth2_rsp random_2 with
  | none =>
    ({ st with transaction_id := random_1.drop 2, transaction_key := random_2 },
     .error .valueErr)
  | some rsp_plain =>
    if check_packet_mac desD rsp_plain (0x12 + 1) = false then
      ({ st with transaction_id := random_1.drop 2, transaction_key := random_2 },
       .error (.tagErr 0x1004))
    else if (rsp_plain.drop 2).take 6 ≠ random_1.drop 2 then
      ({ st with
          transaction_id := random_1.drop 2
          transaction_key := random_2
          transaction_number := fromLE (rsp_plain.take 2) },
       .error (.tagErr 0x1001))
    else
      ({ st with
          transaction_id := random_1.drop 2
          transaction_key := random_2
          transaction_number := fromLE (rsp_plain.take 2)
          authenticated := true },
       .ok ((rsp_plain.drop 8).take 8, (rsp_plain.drop 16).take 8))

/-- Normalization performed by the `except` clause of
`FelicaStandard.mutual_authentication`: a `Type3TagCommandError` is
re-raised unchanged, every other exception becomes the generic
authentication failure 0x1001. -/
def normalize_auth_error : Except PyErr (Bytes × Bytes) → Except PyErr (Bytes × Bytes)
  | .error (.tagErr c) => .error (.tagErr c)
  | .error _ => .error (.tagErr 0x1001)
  | .ok v => .ok v

/-- Body of the `try` block of `FelicaStandard.mutual_authentication`.
`random_1` stands for the randomly generated challenge and `auth1_rsp`,
`auth2_rsp` for the two transport responses; `challenge_1B` is
`auth1_rsp[0:8]` and `challenge_2A` is `auth1_rsp[8:16]`, sliced without
any length check. -/
def mutual_authentication_inner (desE desD : Bytes → Bytes → Bytes) (st : FelicaState)
    (idm : Bytes) (areas services : List Nat) (gsk usk random_1 auth1_rsp auth2_rsp : Bytes) :
    FelicaState × Except PyErr (Bytes × Bytes) :=
  match xor_bytes gsk idm with
  | none => (st, .error .valueErr)
  | some L =>
    match encrypt_des desE usk L with
    | none => (st, .error .valueErr)
    | some alpha =>
      match encrypt_des desE L alpha with
      | none => (st, .error .valueErr)
      | some beta =>
        match encrypt_3des desE desD random_1 alpha L with
        | none => (st, .error .valueErr)
        | some challenge_1A =>
          match build_auth1_command areas services challenge_1A with
          | none => (st, .error .overflowErr)
          | some _auth1_cmd =>
            match encrypt_3des desE desD random_1 L beta with
            | none => (st, .error .valueErr)
            | some expected_1B =>
              if expected_1B ≠ auth1_rsp.take 8 then (st, .error (.tagErr 0x1001))
              else
                match decrypt_3des desE desD ((auth1_rsp.drop 8).take 8) L beta with
                | none => (st, .error .valueErr)
                | some random_2 =>
                  match encrypt_3des desE desD random_2 alpha L with
                  | none => (st, .error .valueErr)
                  | some _challenge_2B =>
                    process_auth2_response desD st auth2_rsp random_1 random_2

/-- Source function `FelicaStandard.mutual_authentication`: the `try`
body followed by the `except` normalization, which keeps whatever state
mutation has already happened. -/
def mutual_authentication (desE desD : Bytes → Bytes → Bytes) (st : FelicaState)
    (idm : Bytes) (areas services : List Nat) (gsk usk random_1 auth1_rsp auth2_rsp : Bytes) :
    FelicaState × Except PyErr (Bytes × Bytes) :=
  ((mutual_authentication_inner desE desD st idm areas services gsk usk random_1
      auth1_rsp auth2_rsp).1,
   normalize_auth_error (mutual_authentication_inner desE desD st idm areas services gsk usk
      random_1 auth1_rsp auth2_rsp).2)

/-- Plaintext, package and envelope payload construction of
`FelicaStandard.register_area`, everything the source does before the
encrypted exchange: the two local validations, the 16-byte package
plaintext, the package wrap and the final payload. -/
def register_area_payload (desE : Bytes → Bytes → Bytes)
    (area_code sc_begin sc_end size key_version : Nat)
    (area_key package_key : Bytes) : Except PyErr Bytes :=
  if area_code ≠ sc_begin then .error .valueErr
  else if area_key.length ≠ 8 then .error .valueErr
  else
    match toBytesLE 2 sc_begin, toBytesLE 2 sc_end, toBytesLE 2 size, toBytesLE 2 key_version with
    | some b1, some b2, some b3, some b4 =>
      match generate_package desE (b1 ++ b2 ++ b3 ++ b4 ++ area_key) package_key with
      | none => .error .valueErr
      | some package =>
        match toBytesLE 2 area_code with
        | some ac => .ok (ac ++ package ++ List.replicate 6 0x06)
        | none => .error .overflowErr
    | _, _, _, _ => .error .overflowErr

/-- Status-byte handling and exception normalization that
`FelicaStandard.register_area` wraps around the encrypted exchange
(`response[0]`/`response[1]` raise `IndexError` on short responses,
normalized by the `except` clause to the area-registration failure). -/
def register_area_exchange (desE desD : Bytes → Bytes → Bytes) (st : FelicaState)
    (payload rsp : Bytes) : FelicaState × Except PyErr Unit :=
  match encryption_exchange desE desD st 0x82 payload rsp with
  | (st1, .error (.tagErr c)) => (st1, .error (.tagErr c))
  | (st1, .error _) => (st1, .error (.tagErr 0x1008))
  | (st1, .ok response) =>
    if response.length < 2 then (st1, .error (.tagErr 0x1008))
    else if response.getD 0 0 ≠ 0 then (st1, .error (.tagErr 0x1008))
    else (st1, .ok ())

/-- Source function `FelicaStandard.register_area`. -/
def register_area (desE desD : Bytes → Bytes → Bytes) (st : FelicaState)
    (area_code sc_begin sc_end size key_version : Nat)
    (area_key package_key rsp : Bytes) : FelicaState × Except PyErr Unit :=
  match register_area_payload desE area_code sc_begin sc_end size key_version
      area_key package_key with
  | .error e => (st, .error e)
  | .ok payload => register_area_exchange desE desD st payload rsp

/-- Key chain of specification section 4.2: starting from a key, encrypt
the running value with each key of the list in order (single-DES CBC,
zero IV).  Stated for comparison with `generate_service_keys`. -/
def chain_keys (desE : Bytes → Bytes → Bytes) (start : Bytes) (keys : List Bytes) : Bytes :=
  keys.foldl (fun cur k => cbcEncrypt (desE k) cur) start

/-- Two-key triple DES in CBC mode with the all-zero IV, the convention
claim C4 ascribes to `encrypt_3des`; stated for comparison with the
source definition. -/
def encrypt_3des_cbc (desE desD : Bytes → Bytes → Bytes) (data k1 k2 : Bytes) : Option Bytes :=
  if k1.length = 8 ∧ k2.length = 8 ∧ data.length % 8 = 0 then
    some ((cbcEncBlocks (e3block desE desD k1 k2) IV_ZEROS (chunks8 data)).flatten)
  else none

/-- Identity block function, used to instantiate the abstract DES block
cipher on concrete runs. -/
def idBlock : Bytes → Bytes → Bytes := fun _ b => b

/-! Helper lemmas about the block decomposition and the CBC wrappers. -/

theorem bxor_replicate_zero : ∀ (n : Nat) (v : Bytes), v.length = n →
    List.zipWith (fun x y => x ^^^ y) (List.replicate n 0) v = v := by
  intro n v
  induction v generalizing n with
  | nil => intro h; subst h; rfl
  | cons a t ih =>
    intro h
    cases n with
    | zero => simp at h
    | succ m =>
      simp only [List.replicate_succ, List.zipWith_cons_cons]
      rw [ih m (by simpa using h)]
      simp

theorem bxor_zeros (v : Bytes) (h : v.length = 8) : bxor IV_ZEROS v = v :=
  bxor_replicate_zero 8 v h

theorem bxor_length (a b : Bytes) : (bxor a b).length = min a.length b.length := by
  rw [bxor, List.length_zipWith]

theorem chunks8_nil : chunks8 [] = [] := rfl

theorem chunks8_cons (l : Bytes) (h : l ≠ []) :
    chunks8 l = l.take 8 :: chunks8 (l.drop 8) := by
  have hlen : 1 ≤ l.length := List.length_pos.mpr h
  have hdiv : (l.length + 7) / 8 = (l.length - 8 + 7) / 8 + 1 := by
    rcases le_or_lt 8 l.length with h8 | h8
    · have heq : l.length + 7 = (l.length - 8 + 7) + 1 * 8 := by omega
      rw [heq, Nat.add_mul_div_right _ _ (by norm_num)]
    · have h0 : l.length - 8 = 0 := by omega
      have h1 : (l.length + 7) / 8 = 1 := Nat.div_eq_of_lt_le (by omega) (by omega)
      rw [h0, h1]
  show (List.range ((l.length + 7) / 8)).map (fun i => (l.drop (8 * i)).take 8)
      = l.take 8 :: chunks8 (l.drop 8)
  rw [chunks8, List.length_drop, hdiv, List.range_succ_eq_map, List.map_cons, List.map_map]
  refine congrArg₂ List.cons (by simp) ?_
  apply List.map_congr_left
  intro i _
  simp only [Function.comp_apply]
  rw [List.drop_drop]
  congr 2
  omega

theorem chunks8_flatten (l : Bytes) : (chunks8 l).flatten = l := by
  suffices h : ∀ n (l : Bytes), l.length = n → (chunks8 l).flatten = l from h l.length l rfl
  intro n
  induction n using Nat.strong_induction_on with
  | _ n ih =>
    intro l hn
    cases l with
    | nil => rfl
    | cons a t =>
      rw [chunks8_cons _ (by simp), List.flatten_cons]
      have hlt : ((a :: t).drop 8).length < n := by
        simp only [List.length_drop, List.length_cons]
        simp only [List.length_cons] at hn
        omega
      rw [ih _ hlt _ rfl, List.take_append_drop]

theorem chunks8_mem_length (l : Bytes) (hl : l.length % 8 = 0) :
    ∀ b ∈ chunks8 l, b.length = 8 := by
  suffices h : ∀ n (l : Bytes), l.length = n → l.length % 8 = 0 →
      ∀ b ∈ chunks8 l, b.length = 8 from h l.length l rfl hl
  intro n
  induction n using Nat.strong_induction_on with
  | _ n ih =>
    intro l hn hmod
    cases l with
    | nil => intro b hb; simp [chunks8_nil] at hb
    | cons a t =>
      rw [chunks8_cons _ (by simp)]
      intro b hb
      rcases List.mem_cons.mp hb with hb | hb
      · subst hb
        simp only [List.length_take, List.length_cons]
        simp only [List.length_cons] at hmod
        omega
      · have hlt : ((a :: t).drop 8).length < n := by
          simp only [List.length_drop, List.length_cons]
          simp only [List.length_cons] at hn
          omega
        have hmod2 : ((a :: t).drop 8).length % 8 = 0 := by
          simp only [List.length_drop, List.length_cons]
          simp only [List.length_cons] at hmod
          omega
        exact ih _ hlt _ rfl hmod2 b hb

theorem chunks8_count (l : Bytes) (h : l.length % 8 = 0) :
    (chunks8 l).length = l.length / 8 := by
  rw [chunks8, List.length_map, List.length_range]
  obtain ⟨q, hq⟩ : 8 ∣ l.length := Nat.dvd_of_mod_eq_zero h
  rw [hq, Nat.mul_add_div (by norm_num), Nat.mul_div_cancel_left _ (by norm_num)]
  norm_num

theorem flatten_length_mul (bs : List Bytes) (h : ∀ b ∈ bs, b.length = 8) :
    bs.flatten.length = 8 * bs.length := by
  induction bs with
  | nil => rfl
  | cons b bs ih =>
    rw [List.flatten_cons, List.length_append, h b (by simp),
      ih (fun x hx => h x (by simp [hx])), List.length_cons]
    ring

theorem chunks8_flatten_blocks (bs : List Bytes) (h : ∀ b ∈ bs, b.length = 8) :
    chunks8 bs.flatten = bs := by
  induction bs with
  | nil => rfl
  | cons b bs ih =>
    have hb : b.length = 8 := h b (by simp)
    have hne : (b :: bs).flatten ≠ [] := by
      rw [List.flatten_cons]
      intro he
      have := congrArg List.length he
      rw [List.length_append, hb] at this
      simp at this
    rw [List.flatten_cons] at hne ⊢
    rw [chunks8_cons _ hne, List.take_append_eq_append_take, List.drop_append_eq_append_drop]
    have h8 : b.length ≤ 8 := by omega
    rw [List.take_of_length_le h8, List.drop_eq_nil_of_le h8, hb]
    simp only [Nat.sub_self, List.take_zero, List.drop_zero, List.append_nil, List.nil_append]
    rw [ih (fun x hx => h x (by simp [hx]))]

theorem chunks8_single (l : Bytes) (h : l.length = 8) : chunks8 l = [l] := by
  have hne : l ≠ [] := by
    intro he; rw [he] at h; simp at h
  rw [chunks8_cons _ hne]
  have hd : l.drop 8 = [] := List.drop_eq_nil_of_le (by omega)
  rw [hd, chunks8_nil, List.take_of_length_le (by omega)]

theorem cbcEncBlocks_count (E : Bytes → Bytes) :
    ∀ (bs : List Bytes) (iv : Bytes), (cbcEncBlocks E iv bs).length = bs.length := by
  intro bs
  induction bs with
  | nil => intro iv; rfl
  | cons b bs ih => intro iv; simp [cbcEncBlocks, ih]

theorem cbcEncBlocks_mem_length (E : Bytes → Bytes)
    (hE : ∀ b, b.length = 8 → (E b).length = 8) :
    ∀ (bs : List Bytes) (iv : Bytes), iv.length = 8 → (∀ b ∈ bs, b.length = 8) →
      ∀ c ∈ cbcEncBlocks E iv bs, c.length = 8 := by
  intro bs
  induction bs with
  | nil => intro iv _ _ c hc; simp [cbcEncBlocks] at hc
  | cons b bs ih =>
    intro iv hiv hlen c hc
    have hb : b.length = 8 := hlen b (by simp)
    have hcb : (E (bxor iv b)).length = 8 := by
      apply hE
      rw [bxor_length]
      omega
    simp only [cbcEncBlocks] at hc
    rcases List.mem_cons.mp hc with h | h
    · rw [h]; exact hcb
    · exact ih _ hcb (fun x hx => hlen x (by simp [hx])) c h

theorem encrypt_des_single (desE : Bytes → Bytes → Bytes) (data key : Bytes)
    (hd : data.length = 8) (hk : key.length = 8) :
    encrypt_des desE data key = some (desE key data) := by
  rw [encrypt_des, if_pos ⟨hk, by rw [hd]⟩]
  congr 1
  rw [cbcEncrypt, chunks8_single data hd]
  simp [cbcEncBlocks, bxor_zeros data hd]

theorem decrypt_des_single (desD : Bytes → Bytes → Bytes) (x b : Bytes)
    (hx : x.length = 8) (hb : b.length = 8) (hDlen : (desD b x).length = 8) :
    decrypt_des desD x b = some (desD b x) := by
  rw [decrypt_des, if_pos ⟨hb, by rw [hx]⟩]
  congr 1
  rw [cbcDecrypt, chunks8_single x hx]
  simp [cbcDecBlocks, bxor_zeros _ hDlen]

theorem encrypt_des_length (desE : Bytes → Bytes → Bytes)
    (hE8 : ∀ k b, k.length = 8 → b.length = 8 → (desE k b).length = 8)
    (data key : Bytes) (hk : key.length = 8) (hd : data.length % 8 = 0) :
    encrypt_des desE data key = some (cbcEncrypt (desE key) data) ∧
    (cbcEncrypt (desE key) data).length = data.length := by
  constructor
  · rw [encrypt_des, if_pos ⟨hk, hd⟩]
  · rw [cbcEncrypt]
    have h1 : ∀ c ∈ cbcEncBlocks (desE key) IV_ZEROS (chunks8 data), c.length = 8 :=
      cbcEncBlocks_mem_length _ (fun b hb => hE8 key b hk hb) _ _ (by simp [IV_ZEROS])
        (chunks8_mem_length data hd)
    rw [flatten_length_mul _ h1, cbcEncBlocks_count, chunks8_count data hd,
      Nat.mul_div_cancel' (Nat.dvd_of_mod_eq_zero hd)]

theorem macfold (desD : Bytes → Bytes → Bytes)
    (hD8 : ∀ k b, k.length = 8 → b.length = 8 → (desD k b).length = 8) :
    ∀ (blocks : List Bytes) (x : Bytes), x.length = 8 → (∀ b ∈ blocks, b.length = 8) →
      blocks.foldlM (fun x b => decrypt_des desD x b) x
        = some (blocks.foldl (fun x b => desD b x) x) ∧
      (blocks.foldl (fun x b => desD b x) x).length = 8 := by
  intro blocks
  induction blocks with
  | nil => intro x hx _; exact ⟨rfl, hx⟩
  | cons b bs ih =>
    intro x hx hb
    have hb8 : b.length = 8 := hb b (by simp)
    have hstep : (desD b x).length = 8 := hD8 b x hb8 hx
    have h1 : decrypt_des desD x b = some (desD b x) := decrypt_des_single desD x b hx hb8 hstep
    rw [List.foldlM_cons, List.foldl_cons, h1]
    simpa using ih (desD b x) hstep (fun c hc => hb c (by simp [hc]))

theorem chainfold (desE : Bytes → Bytes → Bytes)
    (hE8 : ∀ k b, k.length = 8 → b.length = 8 → (desE k b).length = 8) :
    ∀ (keys : List Bytes) (cur : Bytes), cur.length = 8 → (∀ k ∈ keys, k.length = 8) →
      keys.foldlM (fun c k => encrypt_des desE c k) cur
        = some (chain_keys desE cur keys) ∧
      (chain_keys desE cur keys).length = 8 := by
  intro keys
  induction keys with
  | nil => intro cur hc _; exact ⟨rfl, hc⟩
  | cons k ks ih =>
    intro cur hc hk
    have hk8 : k.length = 8 := hk k (by simp)
    have hone : cbcEncrypt (desE k) cur = desE k cur := by
      rw [cbcEncrypt, chunks8_single cur hc]
      simp [cbcEncBlocks, bxor_zeros cur hc]
    have hstep : (cbcEncrypt (desE k) cur).length = 8 := by
      rw [hone]; exact hE8 k cur hk8 hc
    have h1 : encrypt_des desE cur k = some (cbcEncrypt (desE k) cur) := by
      rw [encrypt_des, if_pos ⟨hk8, by rw [hc]⟩]
    rw [List.foldlM_cons, h1, chain_keys, List.foldl_cons]
    simpa [chain_keys] using ih (cbcEncrypt (desE k) cur) hstep (fun c hc => hk c (by simp [hc]))

/-! Results on the claims. -/

/-- Claim C3 (confirmed): the generic response-MAC verification, given
decrypted data whose length is a multiple of 8 and at least 16, splits
the data into 8-byte blocks, takes the last block as the claimed MAC,
iteratively decrypts the MAC backward through the payload blocks in
reverse order using each block as the single-DES decryption key, and
passes if and only if the first byte of the final result equals
`len(data) + 2` and the second byte equals the expected response code;
for any data failing the length preconditions the check fails.  The
source `check_packet_mac` coincides with this rule, stated verbatim as
`spec_packet_mac`, for every block cipher whose decryption preserves the
8-byte block length. -/
theorem C3_generic_mac_rule (desD : Bytes → Bytes → Bytes)
    (hD8 : ∀ k b, k.length = 8 → b.length = 8 → (desD k b).length = 8)
    (data : Bytes) (expected : Nat) :
    check_packet_mac desD data expected = spec_packet_mac desD data expected := by
  by_cases hmod : data.length % 8 = 0
  · by_cases hlen : 16 ≤ data.length
    · have hmac : (data.drop (data.length - 8)).length = 8 := by
        rw [List.length_drop]; omega
      have hpay : (data.take (data.length - 8)).length = data.length - 8 := by
        rw [List.length_take]; omega
      have hpaymod : (data.take (data.length - 8)).length % 8 = 0 := by
        rw [hpay]; omega
      have hblocks : ∀ b ∈ (chunks8 (data.take (data.length - 8))).reverse, b.length = 8 := by
        intro b hb
        exact chunks8_mem_length _ hpaymod b (List.mem_reverse.mp hb)
      obtain ⟨hfold, hxlen⟩ := macfold desD hD8 _ _ hmac hblocks
      rw [check_packet_mac, spec_packet_mac, if_neg (by omega), if_neg (by omega),
        if_neg (by rw [List.length_take]; omega), if_pos ⟨hmod, hlen⟩, hfold]
      rw [show (chunks8 (data.take (data.length - 8))).reverse.foldl
          (fun x b => desD b x) (data.drop (data.length - 8)) = mac_backchain desD data
        from rfl] at hxlen ⊢
      obtain ⟨x0, x1, xs, hx⟩ : ∃ y z zs, mac_backchain desD data = y :: z :: zs := by
        rcases hmb : mac_backchain desD data with _ | ⟨y, _ | ⟨z, zs⟩⟩
        · rw [hmb] at hxlen; simp at hxlen
        · rw [hmb] at hxlen; simp at hxlen
        · exact ⟨_, _, _, rfl⟩
      rw [hx]
      simp [List.getD]
    · rw [check_packet_mac, spec_packet_mac, if_neg (by omega)]
      by_cases h8 : data.length < 8
      · rw [if_pos h8, if_neg (fun h => hlen h.2)]
      · rw [if_neg h8, if_pos (by rw [List.length_take]; omega), if_neg (fun h => hlen h.2)]
  · rw [check_packet_mac, spec_packet_mac, if_pos (by omega), if_neg (fun h => hmod h.1)]

/-- Witness for claim C3 at a concrete 16-byte response. -/
theorem C3_witness :
    check_packet_mac idBlock (List.replicate 8 0 ++ [18, 21, 0, 0, 0, 0, 0, 0]) 21
      = spec_packet_mac idBlock (List.replicate 8 0 ++ [18, 21, 0, 0, 0, 0, 0, 0]) 21 :=
  C3_generic_mac_rule idBlock (fun _ _ _ hb => hb)
    (List.replicate 8 0 ++ [18, 21, 0, 0, 0, 0, 0, 0]) 21

/-- Claim C4, counterexample to the claimed mode of operation: on a
concrete two-block input, `encrypt_3des` (pyDes default ECB) differs
from two-key triple DES in CBC mode with the all-zero IV, the convention
the claim ascribes to it, instantiating the abstract block cipher with
the identity permutation. -/
theorem C4_counterexample :
    encrypt_3des idBlock idBlock (1 :: List.replicate 15 0)
        (List.replicate 8 0) (List.replicate 8 0)
      ≠ encrypt_3des_cbc idBlock idBlock (1 :: List.replicate 15 0)
        (List.replicate 8 0) (List.replicate 8 0) := by
  decide

/-- Claim C4 as amended: `encrypt_3des`/`decrypt_3des` apply two-key EDE
triple DES with effective key `key1 ‖ key2 ‖ key1` in ECB mode, block by
block (which agrees with the CBC/zero-IV convention only on single-block
inputs), and for every pair of 8-byte keys and 8-byte-aligned data the
round trip `decrypt_3des (encrypt_3des d k1 k2) k1 k2 = d` holds. -/
theorem C4_3des_roundtrip (desE desD : Bytes → Bytes → Bytes)
    (hE8 : ∀ k b, k.length = 8 → b.length = 8 → (desE k b).length = 8)
    (hD8 : ∀ k b, k.length = 8 → b.length = 8 → (desD k b).length = 8)
    (hED : ∀ k b, k.length = 8 → b.length = 8 → desD k (desE k b) = b)
    (hDE : ∀ k b, k.length = 8 → b.length = 8 → desE k (desD k b) = b)
    (d k1 k2 : Bytes) (hk1 : k1.length = 8) (hk2 : k2.length = 8)
    (hd : d.length % 8 = 0) :
    ∃ c, encrypt_3des desE desD d k1 k2 = some c ∧
      c = ((chunks8 d).map (e3block desE desD k1 k2)).flatten ∧
      decrypt_3des desE desD c k1 k2 = some d := by
  have hblocks := chunks8_mem_length d hd
  have he3len : ∀ b ∈ chunks8 d, (e3block desE desD k1 k2 b).length = 8 := by
    intro b hb
    exact hE8 k1 _ hk1 (hD8 k2 _ hk2 (hE8 k1 b hk1 (hblocks b hb)))
  have hmape3 : ∀ c ∈ (chunks8 d).map (e3block desE desD k1 k2), c.length = 8 := by
    intro c hc
    obtain ⟨b, hb, rfl⟩ := List.mem_map.mp hc
    exact he3len b hb
  have hclen : (((chunks8 d).map (e3block desE desD k1 k2)).flatten).length % 8 = 0 := by
    rw [flatten_length_mul _ hmape3]; omega
  refine ⟨_, ?_, rfl, ?_⟩
  · rw [encrypt_3des, if_pos ⟨hk1, hk2, hd⟩]
  · rw [decrypt_3des, if_pos ⟨hk1, hk2, hclen⟩]
    rw [chunks8_flatten_blocks _ hmape3, List.map_map]
    have hide : ∀ b ∈ chunks8 d,
        (d3block desE desD k1 k2 ∘ e3block desE desD k1 k2) b = id b := by
      intro b hb
      have hb8 := hblocks b hb
      simp only [Function.comp_apply, d3block, e3block, id]
      rw [hED k1 _ hk1 (hD8 k2 _ hk2 (hE8 k1 b hk1 hb8)),
        hDE k2 _ hk2 (hE8 k1 b hk1 hb8), hED k1 b hk1 hb8]
    rw [List.map_congr_left hide, List.map_id, chunks8_flatten]

/-- Witness for the amended claim C4 at concrete keys and data. -/
theorem C4_witness :
    ∃ c, encrypt_3des idBlock idBlock (List.replicate 16 0)
          (List.replicate 8 0) (List.replicate 8 0) = some c ∧
      c = ((chunks8 (List.replicate 16 0)).map
          (e3block idBlock idBlock (List.replicate 8 0) (List.replicate 8 0))).flatten ∧
      decrypt_3des idBlock idBlock c (List.replicate 8 0) (List.replicate 8 0)
        = some (List.replicate 16 0) :=
  C4_3des_roundtrip idBlock idBlock (fun _ _ _ hb => hb) (fun _ _ _ hb => hb)
    (fun _ _ _ _ => rfl) (fun _ _ _ _ => rfl) (List.replicate 16 0)
    (List.replicate 8 0) (List.replicate 8 0) (by decide) (by decide) (by decide)

/-- Claim C6 (confirmed): `generate_service_keys` returns the pair
(GSK, USK) where GSK chains single-DES-CBC encryptions of the running
key through the area keys in order starting from the system key, and USK
continues the same chain through the service keys; with both lists empty
it returns the system key twice. -/
theorem C6_derive_service_keys (desE : Bytes → Bytes → Bytes)
    (hE8 : ∀ k b, k.length = 8 → b.length = 8 → (desE k b).length = 8)
    (system_key : Bytes) (area_keys service_keys : List Bytes)
    (hsys : system_key.length = 8)
    (hak : ∀ k ∈ area_keys, k.length = 8) (hsk : ∀ k ∈ service_keys, k.length = 8) :
    generate_service_keys desE system_key area_keys service_keys
      = some (chain_keys desE system_key area_keys,
              chain_keys desE (chain_keys desE system_key area_keys) service_keys) ∧
    generate_service_keys desE system_key [] [] = some (system_key, system_key) := by
  obtain ⟨h1, h1len⟩ := chainfold desE hE8 area_keys system_key hsys hak
  obtain ⟨h2, _⟩ := chainfold desE hE8 service_keys _ h1len hsk
  exact ⟨by simp [generate_service_keys, h1, h2], rfl⟩

/-- Witness for claim C6 at one concrete area key and no service key. -/
theorem C6_witness :
    generate_service_keys idBlock (List.replicate 8 0) [List.replicate 8 1] []
      = some (chain_keys idBlock (List.replicate 8 0) [List.replicate 8 1],
              chain_keys idBlock
                (chain_keys idBlock (List.replicate 8 0) [List.replicate 8 1]) []) ∧
    generate_service_keys idBlock (List.replicate 8 0) [] []
      = some (List.replicate 8 0, List.replicate 8 0) :=
  C6_derive_service_keys idBlock (fun _ _ _ hb => hb) (List.replicate 8 0)
    [List.replicate 8 1] [] (by decide) (by decide) (by decide)

theorem generate_package_ok (desE : Bytes → Bytes → Bytes)
    (hE8 : ∀ k b, k.length = 8 → b.length = 8 → (desE k b).length = 8)
    (plain key : Bytes) (hkey : key.length = 8)
    (hmod : plain.length % 8 = 0) (hne : plain ≠ []) :
    ∃ pkg enc, encrypt_des desE plain (bxor key XOR_MASK) = some enc ∧
      generate_package desE plain key = some pkg ∧
      encrypt_des desE (plain ++ enc.drop (enc.length - 8)) key = some pkg ∧
      pkg.length = plain.length + 8 := by
  have hmask : (XOR_MASK : Bytes).length = 8 := by decide
  have hxk : xor_bytes key XOR_MASK = some (bxor key XOR_MASK) := by
    rw [xor_bytes, if_pos (by rw [hkey, hmask])]
  have hmk : (bxor key XOR_MASK).length = 8 := by
    rw [bxor_length, hkey, hmask]; omega
  obtain ⟨henc, henclen⟩ := encrypt_des_length desE hE8 plain _ hmk hmod
  have hlen1 : 1 ≤ plain.length := List.length_pos.mpr hne
  have hmaclen : ((cbcEncrypt (desE (bxor key XOR_MASK)) plain).drop
      ((cbcEncrypt (desE (bxor key XOR_MASK)) plain).length - 8)).length = 8 := by
    rw [List.length_drop, henclen]; omega
  have hcat : (plain ++ (cbcEncrypt (desE (bxor key XOR_MASK)) plain).drop
      ((cbcEncrypt (desE (bxor key XOR_MASK)) plain).length - 8)).length % 8 = 0 := by
    rw [List.length_append, hmaclen]; omega
  obtain ⟨hpkg, hpkglen⟩ := encrypt_des_length desE hE8 _ key hkey hcat
  refine ⟨_, _, henc, ?_, hpkg, ?_⟩
  · rw [generate_package, if_neg (by omega)]
    simp only [hxk, henc, Option.bind_eq_bind, Option.some_bind]
    exact hpkg
  · rw [hpkglen, List.length_append, hmaclen]

/-- Claim C7, counterexample to the output-length statement as claimed:
the empty plaintext has length a multiple of 8, yet the package comes
back empty (pyDes returns the empty string for empty input and the
Python slice `[-8:]` of an empty MAC source is empty), so the output
length is 0 and not `len(plaintext) + 8 = 8`. -/
theorem C7_counterexample :
    generate_package idBlock [] (List.replicate 8 0) = some [] ∧
    ([] : Bytes).length ≠ ([] : Bytes).length + 8 := by
  exact ⟨rfl, by decide⟩

/-- Claim C7 as amended: `generate_package` fails with a size error for
every plaintext whose length is not a multiple of 8; otherwise, for
nonempty plaintext, it computes the MAC as the last 8 bytes of
`encrypt_des(plaintext, packageKey XOR 0xFF*8)`, appends it to the
plaintext and encrypts the result with the package key, and the output
length is exactly `len(plaintext) + 8` (the empty plaintext instead
yields an empty package). -/
theorem C7_generate_package (desE : Bytes → Bytes → Bytes)
    (hE8 : ∀ k b, k.length = 8 → b.length = 8 → (desE k b).length = 8)
    (plain key : Bytes) (hkey : key.length = 8) :
    (plain.length % 8 ≠ 0 → generate_package desE plain key = none) ∧
    (plain.length % 8 = 0 → plain ≠ [] →
      ∃ pkg enc, encrypt_des desE plain (bxor key XOR_MASK) = some enc ∧
        generate_package desE plain key = some pkg ∧
        encrypt_des desE (plain ++ enc.drop (enc.length - 8)) key = some pkg ∧
        pkg.length = plain.length + 8) := by
  constructor
  · intro h; rw [generate_package, if_pos h]
  · intro hmod hne
    exact generate_package_ok desE hE8 plain key hkey hmod hne

/-- Witness for the amended claim C7 at a concrete 8-byte plaintext. -/
theorem C7_witness :
    ((List.replicate 8 3 : Bytes).length % 8 ≠ 0 →
      generate_package idBlock (List.replicate 8 3) (List.replicate 8 0) = none) ∧
    ((List.replicate 8 3 : Bytes).length % 8 = 0 → (List.replicate 8 3 : Bytes) ≠ [] →
      ∃ pkg enc,
        encrypt_des idBlock (List.replicate 8 3)
            (bxor (List.replicate 8 0) XOR_MASK) = some enc ∧
        generate_package idBlock (List.replicate 8 3) (List.replicate 8 0) = some pkg ∧
        encrypt_des idBlock (List.replicate 8 3 ++ enc.drop (enc.length - 8))
            (List.replicate 8 0) = some pkg ∧
        pkg.length = (List.replicate 8 3 : Bytes).length + 8) :=
  C7_generate_package idBlock (fun _ _ _ hb => hb) (List.replicate 8 3)
    (List.replicate 8 0) (by decide)

/-- Claim C1, counterexample to the unchanged-counter statement: in the
authenticated state with `transaction_number = 0xFFFE`, an encrypted
exchange fails with the transaction-overflow error 0x1005 but leaves
`transaction_number = 0xFFFF`: the Python `self.transaction_number += 1`
runs before the overflow test and is never rolled back. -/
theorem C1_counterexample :
    (encryption_exchange idBlock idBlock
        ⟨List.replicate 6 0, List.replicate 8 0, 0xFFFE, true⟩ 0x14 [] []).2
      = Except.error (PyErr.tagErr 0x1005) ∧
    (encryption_exchange idBlock idBlock
        ⟨List.replicate 6 0, List.replicate 8 0, 0xFFFE, true⟩ 0x14 [] []).1.transaction_number
      = 0xFFFF ∧
    (0xFFFF : Nat) ≠ 0xFFFE :=
  ⟨rfl, rfl, by decide⟩

/-- Claim C1 as amended: for every session in the authenticated state
with `transaction_number = 0xFFFE`, issuing any encrypted-envelope
command fails with the transaction-overflow condition before any
transport call (the result does not depend on the transport response),
but the increment IS applied to the session: its `transaction_number`
is left at 0xFFFF. -/
theorem C1_overflow (desE desD : Bytes → Bytes → Bytes) (st : FelicaState)
    (cmd_code : Nat) (data rsp : Bytes)
    (hauth : st.authenticated = true) (htn : st.transaction_number = 0xFFFE) :
    encryption_exchange desE desD st cmd_code data rsp
      = ({ st with transaction_number := 0xFFFF }, Except.error (PyErr.tagErr 0x1005)) := by
  rw [encryption_exchange, if_neg (by rw [hauth]; simp), if_pos (by omega), htn]

/-- Witness for the amended claim C1 at a concrete session state. -/
theorem C1_witness :
    encryption_exchange idBlock idBlock
        ⟨List.replicate 6 1, List.replicate 8 2, 0xFFFE, true⟩ 0x16 [7] [9]
      = ({ transaction_id := List.replicate 6 1, transaction_key := List.replicate 8 2,
           transaction_number := 0xFFFF, authenticated := true },
         Except.error (PyErr.tagErr 0x1005)) :=
  C1_overflow idBlock idBlock
    ⟨List.replicate 6 1, List.replicate 8 2, 0xFFFE, true⟩ 0x16 [7] [9] rfl rfl

/-- Claim C5 (confirmed): for every decrypted envelope response that
passes MAC verification, if its first-two-bytes little-endian
transaction number is at most the session's current transaction number,
or its bytes 2 to 7 differ from the session's transaction id, the
operation fails with the transaction-ordering error 0x1003 and the
session counter is not updated; otherwise the session counter is updated
to the response value and exactly the bytes past the 8-byte header are
returned. -/
theorem C5_response_ordering (desD : Bytes → Bytes → Bytes) (st : FelicaState)
    (response : Bytes) (cmd_code : Nat)
    (hmac : check_packet_mac desD response (cmd_code + 1) = true) :
    (fromLE (response.take 2) ≤ st.transaction_number ∨
        (response.drop 2).take 6 ≠ st.transaction_id →
      verify_encrypted_response desD st response cmd_code
        = (st, Except.error (PyErr.tagErr 0x1003))) ∧
    (st.transaction_number < fromLE (response.take 2) ∧
        (response.drop 2).take 6 = st.transaction_id →
      verify_encrypted_response desD st response cmd_code
        = ({ st with transaction_number := fromLE (response.take 2) },
           Except.ok (response.drop 8))) := by
  constructor
  · intro h
    rw [verify_encrypted_response, if_neg (by rw [hmac]; simp)]
    by_cases hle : fromLE (response.take 2) ≤ st.transaction_number
    · rw [if_pos hle]
    · rw [if_neg hle, if_pos (by tauto)]
  · intro h
    rw [verify_encrypted_response, if_neg (by rw [hmac]; simp),
      if_neg (by omega), if_neg (by simp [h.2])]

/-- Witness for claim C5 at a concrete MAC-passing response that fails
the ordering check. -/
theorem C5_witness :
    check_packet_mac idBlock (List.replicate 8 0 ++ [18, 21, 0, 0, 0, 0, 0, 0]) (0x14 + 1)
        = true ∧
    (fromLE ((List.replicate 8 0 ++ [18, 21, 0, 0, 0, 0, 0, 0] : Bytes).take 2) ≤ 5 ∨
        (((List.replicate 8 0 ++ [18, 21, 0, 0, 0, 0, 0, 0] : Bytes)).drop 2).take 6
          ≠ List.replicate 6 0 →
      verify_encrypted_response idBlock ⟨List.replicate 6 0, List.replicate 8 0, 5, true⟩
          (List.replicate 8 0 ++ [18, 21, 0, 0, 0, 0, 0, 0]) 0x14
        = (⟨List.replicate 6 0, List.replicate 8 0, 5, true⟩,
           Except.error (PyErr.tagErr 0x1003))) :=
  ⟨by decide,
   (C5_response_ordering idBlock ⟨List.replicate 6 0, List.replicate 8 0, 5, true⟩
     (List.replicate 8 0 ++ [18, 21, 0, 0, 0, 0, 0, 0]) 0x14 (by decide)).1⟩

/-- Claim C10 (confirmed): for every command whose padded envelope
payload is longer than 245 bytes, the per-command MAC computation fails:
the seed's one-byte length field must encode `2 + len(payload) + 8`,
which exceeds 255, so the operation raises the overflow error before any
encryption or transmission (the result does not depend on the transport
response) — and the failure occurs after the session's
`transaction_number` has already been incremented. -/
theorem C10_mac_seed_overflow (desE desD : Bytes → Bytes → Bytes) (st : FelicaState)
    (cmd_code : Nat) (data rsp : Bytes)
    (hauth : st.authenticated = true)
    (hlt : st.transaction_number + 1 < 0xFFFF)
    (hbig : 245 < (add_padding (natLE2 (st.transaction_number + 1)
        ++ st.transaction_id ++ data)).length) :
    encryption_exchange desE desD st cmd_code data rsp
      = ({ st with transaction_number := st.transaction_number + 1 },
         Except.error PyErr.overflowErr) := by
  rw [encryption_exchange, if_neg (by rw [hauth]; simp), if_neg (by omega)]
  rw [show calculate_command_mac desE cmd_code
      (add_padding (natLE2 (st.transaction_number + 1) ++ st.transaction_id ++ data))
      = Except.error PyErr.overflowErr from by
    rw [calculate_command_mac, if_pos (by omega)]]

set_option maxRecDepth 4000 in
/-- Witness for claim C10 with a 240-byte application payload. -/
theorem C10_witness :
    encryption_exchange idBlock idBlock
        ⟨List.replicate 6 0, List.replicate 8 0, 5, true⟩ 0x14 (List.replicate 240 0) []
      = ({ transaction_id := List.replicate 6 0, transaction_key := List.replicate 8 0,
           transaction_number := 6, authenticated := true },
         Except.error PyErr.overflowErr) :=
  C10_mac_seed_overflow idBlock idBlock
    ⟨List.replicate 6 0, List.replicate 8 0, 5, true⟩ 0x14 (List.replicate 240 0) []
    rfl (by decide) (by decide)

theorem process_auth2_error_auth (desD : Bytes → Bytes → Bytes) (st : FelicaState)
    (a r1 r2 : Bytes) (st1 : FelicaState) (e : PyErr)
    (h : process_auth2_response desD st a r1 r2 = (st1, Except.error e)) :
    st1.authenticated = st.authenticated := by
  rw [process_auth2_response] at h
  split at h
  · injection h with h1 h2
    subst h1; rfl
  · split at h
    · injection h with h1 h2
      subst h1; rfl
    · split at h
      · injection h with h1 h2
        subst h1; rfl
      · injection h with h1 h2
        exact Except.noConfusion h2

theorem inner_error_auth (desE desD : Bytes → Bytes → Bytes) (st : FelicaState)
    (idm : Bytes) (areas services : List Nat)
    (gsk usk random_1 auth1_rsp auth2_rsp : Bytes) (st1 : FelicaState) (e : PyErr)
    (h : mutual_authentication_inner desE desD st idm areas services gsk usk random_1
        auth1_rsp auth2_rsp = (st1, Except.error e)) :
    st1.authenticated = st.authenticated := by
  rw [mutual_authentication_inner] at h
  split at h
  · exact (congrArg (fun p => p.1.authenticated) h).symm
  · split at h
    · exact (congrArg (fun p => p.1.authenticated) h).symm
    · split at h
      · exact (congrArg (fun p => p.1.authenticated) h).symm
      · split at h
        · exact (congrArg (fun p => p.1.authenticated) h).symm
        · split at h
          · exact (congrArg (fun p => p.1.authenticated) h).symm
          · split at h
            · exact (congrArg (fun p => p.1.authenticated) h).symm
            · split at h
              · exact (congrArg (fun p => p.1.authenticated) h).symm
              · split at h
                · exact (congrArg (fun p => p.1.authenticated) h).symm
                · split at h
                  · exact (congrArg (fun p => p.1.authenticated) h).symm
                  · exact process_auth2_error_auth desD st auth2_rsp random_1 _ st1 e h

/-- Claim C2, counterexample to atomic population of the session state:
a concrete handshake run that passes the challenge check but fails the
response-MAC verification (result code 0x1004) leaves `authenticated`
false, yet has already overwritten `transaction_id` (to `random_1[2:]`)
and `transaction_key` (to `random_2`) from their pre-handshake values,
so the state is partially modified by a failing run. -/
theorem C2_counterexample :
    mutual_authentication idBlock idBlock ⟨[], [], 0, false⟩ (List.replicate 8 0) [] []
        (List.replicate 8 0) (List.replicate 8 0) (List.replicate 8 0)
        (List.replicate 16 0) (List.replicate 8 0)
      = (⟨List.replicate 6 0, List.replicate 8 0, 0, false⟩,
         Except.error (PyErr.tagErr 0x1004)) ∧
    (List.replicate 6 0 : Bytes) ≠ ([] : Bytes) :=
  ⟨rfl, by decide⟩

/-- Claim C2 as amended: `authenticated` stays false on every failing
handshake run (it is set only after all checks pass), and a failure of
the `challenge_1B` comparison leaves the whole session state unmodified;
however a later response-MAC failure or echoed-id mismatch occurs only
after `transaction_id` and `transaction_key` (and, for the id mismatch,
`transaction_number`) have already been overwritten, so those fields are
not populated atomically. -/
theorem C2_session_state (desE desD : Bytes → Bytes → Bytes) (st : FelicaState)
    (idm : Bytes) (areas services : List Nat)
    (gsk usk random_1 auth1_rsp auth2_rsp : Bytes) :
    (∀ st1 e, st.authenticated = false →
      mutual_authentication desE desD st idm areas services gsk usk random_1
          auth1_rsp auth2_rsp = (st1, Except.error e) →
      st1.authenticated = false) ∧
    (∀ L alpha beta c1a cmd1 e1b,
      xor_bytes gsk idm = some L →
      encrypt_des desE usk L = some alpha →
      encrypt_des desE L alpha = some beta →
      encrypt_3des desE desD random_1 alpha L = some c1a →
      build_auth1_command areas services c1a = some cmd1 →
      encrypt_3des desE desD random_1 L beta = some e1b →
      e1b ≠ auth1_rsp.take 8 →
      mutual_authentication desE desD st idm areas services gsk usk random_1
          auth1_rsp auth2_rsp = (st, Except.error (PyErr.tagErr 0x1001))) := by
  constructor
  · intro st1 e hauth heq
    rcases hin : mutual_authentication_inner desE desD st idm areas services gsk usk
        random_1 auth1_rsp auth2_rsp with ⟨sti, ri⟩
    rw [mutual_authentication, hin] at heq
    injection heq with hs hr
    subst hs
    cases ri with
    | ok v => exact Except.noConfusion hr
    | error e0 =>
      rw [inner_error_auth desE desD st idm areas services gsk usk random_1
        auth1_rsp auth2_rsp sti e0 hin, hauth]
  · intro L alpha beta c1a cmd1 e1b hL ha hb hc hcmd he1b hne
    have hin : mutual_authentication_inner desE desD st idm areas services gsk usk
        random_1 auth1_rsp auth2_rsp = (st, Except.error (PyErr.tagErr 0x1001)) := by
      rw [mutual_authentication_inner]
      simp only [hL, ha, hb, hc, hcmd, he1b]
      rw [if_pos hne]
    rw [mutual_authentication, hin]
    rfl

/-- Witness for the amended claim C2: a concrete run whose challenge
comparison fails, rejected with 0x1001 and the state untouched. -/
theorem C2_witness :
    mutual_authentication idBlock idBlock ⟨[], [], 0, false⟩ (List.replicate 8 0) [] []
        (List.replicate 8 0) (List.replicate 8 0) (List.replicate 8 0)
        (List.replicate 16 1) (List.replicate 8 0)
      = (⟨[], [], 0, false⟩, Except.error (PyErr.tagErr 0x1001)) :=
  (C2_session_state idBlock idBlock ⟨[], [], 0, false⟩ (List.replicate 8 0) [] []
      (List.replicate 8 0) (List.replicate 8 0) (List.replicate 8 0)
      (List.replicate 16 1) (List.replicate 8 0)).2
    (List.replicate 8 0) (List.replicate 8 0) (List.replicate 8 0) (List.replicate 8 0)
    ([0] ++ [0] ++ List.replicate 8 0) (List.replicate 8 0)
    rfl rfl rfl rfl rfl rfl (by decide)

theorem C9_inner (desE desD : Bytes → Bytes → Bytes) (st : FelicaState)
    (idm : Bytes) (areas services : List Nat)
    (gsk usk random_1 auth1_rsp auth2_rsp : Bytes)
    (h : auth1_rsp.length < 16) :
    ∃ st1 e,
      mutual_authentication_inner desE desD st idm areas services gsk usk random_1
          auth1_rsp auth2_rsp = (st1, Except.error e) ∧
      st1.authenticated = st.authenticated ∧
      (e = PyErr.valueErr ∨ e = PyErr.overflowErr ∨ e = PyErr.tagErr 0x1001) := by
  rw [mutual_authentication_inner]
  rcases h1 : xor_bytes gsk idm with _ | L
  · exact ⟨st, PyErr.valueErr, rfl, rfl, Or.inl rfl⟩
  · rcases h2 : encrypt_des desE usk L with _ | alpha
    · refine ⟨st, PyErr.valueErr, ?_, rfl, Or.inl rfl⟩
      simp only [h2]
    · rcases h3 : encrypt_des desE L alpha with _ | beta
      · refine ⟨st, PyErr.valueErr, ?_, rfl, Or.inl rfl⟩
        simp only [h2, h3]
      · rcases h4 : encrypt_3des desE desD random_1 alpha L with _ | c1a
        · refine ⟨st, PyErr.valueErr, ?_, rfl, Or.inl rfl⟩
          simp only [h2, h3, h4]
        · rcases h5 : build_auth1_command areas services c1a with _ | cmd1
          · refine ⟨st, PyErr.overflowErr, ?_, rfl, Or.inr (Or.inl rfl)⟩
            simp only [h2, h3, h4, h5]
          · rcases h6 : encrypt_3des desE desD random_1 L beta with _ | e1b
            · refine ⟨st, PyErr.valueErr, ?_, rfl, Or.inl rfl⟩
              simp only [h2, h3, h4, h5, h6]
            · by_cases hne : e1b ≠ auth1_rsp.take 8
              · refine ⟨st, PyErr.tagErr 0x1001, ?_, rfl, Or.inr (Or.inr rfl)⟩
                simp only [h2, h3, h4, h5, h6]
                rw [if_pos hne]
              · rcases h7 : decrypt_3des desE desD ((auth1_rsp.drop 8).take 8) L beta
                    with _ | random_2
                · refine ⟨st, PyErr.valueErr, ?_, rfl, Or.inl rfl⟩
                  simp only [h2, h3, h4, h5, h6]
                  rw [if_neg hne, h7]
                · have hslice : (auth1_rsp.drop 8).take 8 = [] := by
                    have hlen : ((auth1_rsp.drop 8).take 8).length % 8 = 0 := by
                      by_contra hc
                      rw [decrypt_3des, if_neg (fun hx => hc hx.2.2)] at h7
                      exact Option.noConfusion h7
                    apply List.eq_nil_of_length_eq_zero
                    rw [List.length_take, List.length_drop] at hlen ⊢
                    omega
                  have hr2 : random_2 = [] := by
                    rw [hslice, decrypt_3des] at h7
                    split at h7
                    · injection h7 with h7e
                      simpa using h7e.symm
                    · exact Option.noConfusion h7
                  rcases h8 : encrypt_3des desE desD random_2 alpha L with _ | c2b
                  · refine ⟨st, PyErr.valueErr, ?_, rfl, Or.inl rfl⟩
                    simp only [h2, h3, h4, h5, h6]
                    rw [if_neg hne, h7]
                    simp only [h8]
                  · refine ⟨{ st with
                        transaction_id := random_1.drop 2
                        transaction_key := random_2 }, PyErr.valueErr, ?_, rfl, Or.inl rfl⟩
                    have hdec : decrypt_des desD auth2_rsp random_2 = none := by
                      rw [decrypt_des, if_neg]
                      rw [hr2]
                      simp
                    simp only [h2, h3, h4, h5, h6]
                    rw [if_neg hne, h7]
                    simp only [h8]
                    rw [process_auth2_response, hdec]

/-- Claim C9 (confirmed): if the first-round authentication response is
shorter than 16 bytes, `mutual_authentication` does not raise a
data-size condition: the `challenge_1B` and `challenge_2A` slices are
taken without any length check, so in every such run the failure
surfaces as the generic authentication-failure error 0x1001 (through the
challenge comparison mismatch, a pyDes size error on the short
`challenge_2A`, or the empty-key failure of the second-round decryption,
all normalized by the catch-all clause), and the `authenticated` flag is
left exactly as it was. -/
theorem C9_short_auth1_response (desE desD : Bytes → Bytes → Bytes) (st : FelicaState)
    (idm : Bytes) (areas services : List Nat)
    (gsk usk random_1 auth1_rsp auth2_rsp : Bytes)
    (h : auth1_rsp.length < 16) :
    (mutual_authentication desE desD st idm areas services gsk usk random_1
        auth1_rsp auth2_rsp).2 = Except.error (PyErr.tagErr 0x1001) ∧
    (mutual_authentication desE desD st idm areas services gsk usk random_1
        auth1_rsp auth2_rsp).1.authenticated = st.authenticated := by
  obtain ⟨st1, e, hin, hauth, he⟩ :=
    C9_inner desE desD st idm areas services gsk usk random_1 auth1_rsp auth2_rsp h
  rw [mutual_authentication, hin]
  rcases he with rfl | rfl | rfl <;> exact ⟨rfl, hauth⟩

/-- Witness for claim C9 at a concrete 12-byte first-round response. -/
theorem C9_witness :
    (mutual_authentication idBlock idBlock ⟨[], [], 0, false⟩ (List.replicate 8 0) [] []
        (List.replicate 8 0) (List.replicate 8 0) (List.replicate 8 0)
        (List.replicate 12 0) (List.replicate 8 0)).2
      = Except.error (PyErr.tagErr 0x1001) ∧
    (mutual_authentication idBlock idBlock ⟨[], [], 0, false⟩ (List.replicate 8 0) [] []
        (List.replicate 8 0) (List.replicate 8 0) (List.replicate 8 0)
        (List.replicate 12 0) (List.replicate 8 0)).1.authenticated = false :=
  C9_short_auth1_response idBlock idBlock ⟨[], [], 0, false⟩ (List.replicate 8 0) [] []
    (List.replicate 8 0) (List.replicate 8 0) (List.replicate 8 0)
    (List.replicate 12 0) (List.replicate 8 0) (by decide)

theorem toBytesLE_two (n : Nat) (h : n < 65536) : toBytesLE 2 n = some (natLE2 n) := by
  rw [toBytesLE, if_pos (show n < 256 ^ 2 by norm_num; omega)]
  simp [natLE2, List.range_succ]

/-- Claim C8 (confirmed): `register_area` fails locally with a
`ValueError`, before any package construction or transport call (the
result does not depend on the transport response and the state is
untouched), whenever the area code differs from the first service code
or the area key is not 8 bytes; otherwise it wraps the plaintext
`scBegin(2,LE) ‖ scEnd(2,LE) ‖ size(2,LE) ‖ keyVersion(2,LE) ‖ areaKey`
through `generate_package` and hands the envelope payload
`areaCode(2,LE) ‖ package ‖ 0x06 * 6` to the encrypted exchange. -/
theorem C8_register_area (desE desD : Bytes → Bytes → Bytes) (st : FelicaState)
    (area_code sc_begin sc_end size key_version : Nat)
    (area_key package_key rsp : Bytes)
    (hE8 : ∀ k b, k.length = 8 → b.length = 8 → (desE k b).length = 8)
    (hpk : package_key.length = 8)
    (hbeg : sc_begin < 65536) (hend : sc_end < 65536) (hsz : size < 65536)
    (hkv : key_version < 65536) :
    ((area_code ≠ sc_begin ∨ area_key.length ≠ 8) →
      register_area desE desD st area_code sc_begin sc_end size key_version area_key
          package_key rsp = (st, Except.error PyErr.valueErr)) ∧
    (area_code = sc_begin → area_key.length = 8 →
      ∃ pkg,
        generate_package desE
          (natLE2 sc_begin ++ natLE2 sc_end ++ natLE2 size ++ natLE2 key_version ++ area_key)
          package_key = some pkg ∧
        register_area desE desD st area_code sc_begin sc_end size key_version area_key
            package_key rsp
          = register_area_exchange desE desD st
              (natLE2 area_code ++ pkg ++ List.replicate 6 0x06) rsp) := by
  constructor
  · intro hbad
    by_cases hac : area_code ≠ sc_begin
    · rw [register_area, register_area_payload, if_pos hac]
    · have hak : area_key.length ≠ 8 := by tauto
      rw [register_area, register_area_payload, if_neg hac, if_pos hak]
  · intro hac hak
    have h1 := toBytesLE_two sc_begin hbeg
    have h2 := toBytesLE_two sc_end hend
    have h3 := toBytesLE_two size hsz
    have h4 := toBytesLE_two key_version hkv
    have h5 : toBytesLE 2 area_code = some (natLE2 area_code) :=
      toBytesLE_two area_code (by omega)
    have hplain : (natLE2 sc_begin ++ natLE2 sc_end ++ natLE2 size ++ natLE2 key_version
        ++ area_key).length % 8 = 0 := by
      simp [natLE2, hak]
    have hne : (natLE2 sc_begin ++ natLE2 sc_end ++ natLE2 size ++ natLE2 key_version
        ++ area_key) ≠ [] := by
      simp [natLE2]
    obtain ⟨pkg, enc, -, hgen, -, -⟩ :=
      generate_package_ok desE hE8 _ package_key hpk hplain hne
    refine ⟨pkg, hgen, ?_⟩
    rw [register_area, register_area_payload, if_neg (by omega), if_neg (by omega)]
    simp only [h1, h2, h3, h4, hgen, h5]

/-- Witness for claim C8 at concrete registration parameters. -/
theorem C8_witness :
    ((3 ≠ 3 ∨ (List.replicate 8 7 : Bytes).length ≠ 8) →
      register_area idBlock idBlock ⟨[], [], 0, false⟩ 3 3 4 5 6
          (List.replicate 8 7) (List.replicate 8 0) []
        = (⟨[], [], 0, false⟩, Except.error PyErr.valueErr)) ∧
    ((3 : Nat) = 3 → (List.replicate 8 7 : Bytes).length = 8 →
      ∃ pkg,
        generate_package idBlock
          (natLE2 3 ++ natLE2 4 ++ natLE2 5 ++ natLE2 6 ++ List.replicate 8 7)
          (List.replicate 8 0) = some pkg ∧
        register_area idBlock idBlock ⟨[], [], 0, false⟩ 3 3 4 5 6
            (List.replicate 8 7) (List.replicate 8 0) []
          = register_area_exchange idBlock idBlock ⟨[], [], 0, false⟩
              (natLE2 3 ++ pkg ++ List.replicate 6 0x06) []) :=
  C8_register_area idBlock idBlock ⟨[], [], 0, false⟩ 3 3 4 5 6
    (List.replicate 8 7) (List.replicate 8 0) [] (fun _ _ _ hb => hb)
    (by decide) (by decide) (by decide) (by decide) (by decide)

end Felica
